import Mathlib

/-!
Verification of the NDMA Hill-model library (hill_model.py, models.py).

The numeric domain of the Python code (IEEE floats) is modelled by the
rationals.  The float power `x ** p` is modelled by `qpow`, which raises to
the integer numerator of the exponent; every claim below exercises the power
only at integer exponents, where this agrees with the mathematical power the
code computes.  Fallible Python paths (IndexError, TypeError, unbound local,
ValueError) are modelled with Option/Except values.
-/

namespace NDMA

/-- The four Hill-component parameter names, in the order of the source's
PARAMETER_NAMES list: ell, delta, theta, hillCoefficient. -/
inductive ParamName where
  | ell
  | delta
  | theta
  | hillCoefficient
deriving DecidableEq, Repr

/-- Model of the float power `x ** p` of the source for rational values.
For an exponent that is an integer (`p.den = 1`, the only case the claims
exercise) `p.num` is that integer, so `qpow x p` is the mathematical power
computed by the code.  (Python raises ZeroDivisionError for `0 ** p` with
`p < 0`; in `ℚ` the zpow convention gives `0`.  No claim touches that case.) -/
def qpow (x p : ℚ) : ℚ := x ^ p.num

/-- Model of a HillComponent instance: the interaction sign, the vector of
fixed parameter values (`parameterValues`, initialised to zeros and filled at
construction), and the ordered list of variable (callable) parameter names. -/
structure HillComponent where
  sign : ℤ
  parameterValues : ParamName → ℚ
  variableParameters : List ParamName

instance : Inhabited HillComponent := ⟨⟨0, fun _ => 0, []⟩⟩

/-- Model of `HillComponent.__init__`: keyword arguments fix a subset of the
four parameters; the remaining names, kept in PARAMETER_NAMES order (Python
dicts preserve insertion order), become the variable parameters. -/
def mkHillComponent (sign : ℤ) (kwargs : ParamName → Option ℚ) : HillComponent :=
  { sign := sign
    parameterValues := fun n => (kwargs n).getD 0
    variableParameters :=
      [ParamName.ell, ParamName.delta, ParamName.theta,
        ParamName.hillCoefficient].filter (fun n => (kwargs n).isNone) }

/-- Model of `HillComponent.curry_parameters`: start from a copy of the fixed
parameter vector and overwrite the variable slots with the entries of the
passed parameter vector, in the order of `variableParameters` (the numpy
fancy assignment `parameterEvaluation[self.parameterCallIndex] = parameter`).
The copy in the source is what keeps `self.parameterValues` untouched. -/
def HillComponent.curry (c : HillComponent) (p : List ℚ) : ParamName → ℚ :=
  (c.variableParameters.zip p).foldl
    (fun acc nv => fun m => if m = nv.1 then nv.2 else acc m) c.parameterValues

/-- Model of `HillComponent.__call__` (hill_model.py lines 164-180): unpack
the four parameters through `curry_parameters`, compute `x ** n` and
`theta ** n` once, and return `ell + delta * evalRational` with
`evalRational = xPower/(xPower+thetaPower)` for sign `+1` and
`thetaPower/(xPower+thetaPower)` for sign `-1`.  For a sign outside
`{1, -1}` the Python leaves `evalRational` unbound (UnboundLocalError); the
junk value `0` of that branch is never relied upon by any claim. -/
def HillComponent.call (c : HillComponent) (x : ℚ) (p : List ℚ) : ℚ :=
  let pv := c.curry p
  let xP := qpow x (pv ParamName.hillCoefficient)
  let θP := qpow (pv ParamName.theta) (pv ParamName.hillCoefficient)
  if c.sign = 1 then pv ParamName.ell + pv ParamName.delta * (xP / (xP + θP))
  else if c.sign = -1 then pv ParamName.ell + pv ParamName.delta * (θP / (xP + θP))
  else 0

/-- Model of `HillComponent.dx` (hill_model.py lines 192-201): the closed-form
first derivative of a Hill component with respect to `x`. -/
def HillComponent.dx (c : HillComponent) (x : ℚ) (p : List ℚ) : ℚ :=
  let pv := c.curry p
  let n := pv ParamName.hillCoefficient
  let θP := qpow (pv ParamName.theta) n
  let xPS := qpow x (n - 1)
  let xP := xPS * x
  (c.sign : ℚ) * n * pv ParamName.delta * θP * xPS / ((θP + xP) ^ 2)

/-- The Scenario C component: sign +1, all four parameters fixed at
ell = 0, delta = 1, theta = 2, hillCoefficient = 4. -/
def scenarioC : HillComponent :=
  mkHillComponent 1 (fun n =>
    match n with
    | ParamName.ell => some 0
    | ParamName.delta => some 1
    | ParamName.theta => some 2
    | ParamName.hillCoefficient => some 4)

/-- C1: a HillComponent call returns `ell + delta * R(x)` with
`R = x^n/(x^n+theta^n)` for sign +1 and `R = theta^n/(x^n+theta^n)` for
sign -1, the four parameter values being the curried combination of fixed
and vector-supplied ones; and the Scenario C component evaluates to exactly
1/2 at x = 2. -/
theorem hillComponent_call_formula :
    (∀ (c : HillComponent) (x : ℚ) (p : List ℚ), c.sign = 1 →
      c.call x p =
        c.curry p ParamName.ell + c.curry p ParamName.delta *
          (qpow x (c.curry p ParamName.hillCoefficient) /
            (qpow x (c.curry p ParamName.hillCoefficient) +
              qpow (c.curry p ParamName.theta) (c.curry p ParamName.hillCoefficient)))) ∧
    (∀ (c : HillComponent) (x : ℚ) (p : List ℚ), c.sign = -1 →
      c.call x p =
        c.curry p ParamName.ell + c.curry p ParamName.delta *
          (qpow (c.curry p ParamName.theta) (c.curry p ParamName.hillCoefficient) /
            (qpow x (c.curry p ParamName.hillCoefficient) +
              qpow (c.curry p ParamName.theta) (c.curry p ParamName.hillCoefficient)))) ∧
    scenarioC.call 2 [] = 1 / 2 := by
  refine ⟨?_, ?_, ?_⟩
  · intro c x p hs
    simp [HillComponent.call, hs]
  · intro c x p hs
    have h1 : c.sign ≠ 1 := by rw [hs]; decide
    simp [HillComponent.call, hs, h1]
  · have hs : scenarioC.sign = 1 := rfl
    have hv : scenarioC.variableParameters = [] := rfl
    simp [HillComponent.call, HillComponent.curry, hv, hs, scenarioC,
      mkHillComponent, qpow]
    norm_num

/-- Witness for C1: the general sign = +1 formula instantiated at the
Scenario C component at x = 2 with the empty variable-parameter vector. -/
theorem hillComponent_call_formula_witness :
    scenarioC.call 2 [] =
      scenarioC.curry [] ParamName.ell + scenarioC.curry [] ParamName.delta *
        (qpow 2 (scenarioC.curry [] ParamName.hillCoefficient) /
          (qpow 2 (scenarioC.curry [] ParamName.hillCoefficient) +
            qpow (scenarioC.curry [] ParamName.theta)
              (scenarioC.curry [] ParamName.hillCoefficient))) :=
  hillComponent_call_formula.1 scenarioC 2 [] rfl

/-! ## HillCoordinate -/

/-- Running partial sums of a list starting from `a` (the tail of numpy's
`cumsum`, which has one entry per input entry). -/
def cumsumFrom (a : ℕ) : List ℕ → List ℕ
  | [] => []
  | n :: ns => (a + n) :: cumsumFrom (a + n) ns

/-- Model of `np.insert(np.cumsum(l), 0, 0)`: the partial sums of `l`
preceded by 0. -/
def sumEndpoints (l : List ℕ) : List ℕ := 0 :: cumsumFrom 0 l

/-- Model of `HillCoordinate.set_summand` (hill_model.py lines 988-996): slice
`range K` at the cumulative endpoints of the interaction type.  Python list
slicing clips out-of-range bounds silently, which `drop`/`take` reproduce;
in particular a partition that does not sum to `K` is NOT rejected. -/
def setSummand (K : ℕ) (interactionType : List ℕ) : List (List ℕ) :=
  (List.range interactionType.length).map fun i =>
    ((List.range K).drop ((sumEndpoints interactionType).getD i 0)).take
      ((sumEndpoints interactionType).getD (i + 1) 0 -
        (sumEndpoints interactionType).getD i 0)

/-- Model of a HillCoordinate instance with its construction-time derived
attributes.  `gammaFixed = some g` models a fixed decay rate; `none` models
`gamma = NaN`, i.e. gamma variable and read from slot 0 of the coordinate's
parameter vector. -/
structure HillCoordinate where
  gammaFixed : Option ℚ
  components : List HillComponent
  index : ℕ
  interactionIndex : List ℕ
  interactionType : List ℕ
  summand : List (List ℕ)
  variableIndexByComponent : List ℕ

/-- Number of Hill components of a coordinate (`self.nComponent`). -/
def HillCoordinate.nComponent (c : HillCoordinate) : ℕ := c.components.length

/-- Model of `HillCoordinate.__init__` (hill_model.py lines 522-558): each row
of the parameter array builds one HillComponent (a `none` entry is a NaN,
i.e. a variable parameter); `interactionIndexFull[0]` is this coordinate's
own global index and the tail the incoming interaction indices; the summand
groups and the cumulative variable-parameter offsets
(`variableIndexByComponent = cumsum([gammaIsVariable] + nVarByComponent)`)
are derived.  The constructor contains no validation and no raise path. -/
def mkHillCoordinate (parameter : List (ParamName → Option ℚ))
    (interactionSign : List ℤ) (interactionType : List ℕ)
    (interactionIndexFull : List ℕ) (gamma : Option ℚ) : HillCoordinate :=
  let comps := List.zipWith mkHillComponent interactionSign parameter
  { gammaFixed := gamma
    components := comps
    index := interactionIndexFull.getD 0 0
    interactionIndex := interactionIndexFull.drop 1
    interactionType := interactionType
    summand := setSummand interactionSign.length interactionType
    variableIndexByComponent :=
      cumsumFrom 0 ((if gamma.isSome then 0 else 1) ::
        comps.map (fun H => H.variableParameters.length)) }

/-- Model of the gamma half of `HillCoordinate.parse_parameters`: a fixed
gamma is returned as stored, a variable gamma is read from slot 0 of the
coordinate's parameter vector. -/
def HillCoordinate.parseGamma (c : HillCoordinate) (p : List ℚ) : ℚ :=
  match c.gammaFixed with
  | some g => g
  | none => p.getD 0 0

/-- Model of the slicing half of `HillCoordinate.parse_parameters`: the slice
`p[v[j] : v[j+1]]` of the coordinate's parameter vector for each component
`j`, where `v = [gammaIsVariable] ++ nVarByComponent` cumulated.  Note the
source's `variableIndexByComponent` has the gamma offset as entry 0, so the
j-th slice uses entries j and j+1 of `0 :: variableIndexByComponent`...
actually the source cumsum already starts at the gamma flag, so slice j is
`[v[j], v[j+1])` with `v = variableIndexByComponent`. -/
def HillCoordinate.parameterByComponent (c : HillCoordinate) (p : List ℚ) :
    List (List ℚ) :=
  (List.range c.nComponent).map fun j =>
    (p.drop (c.variableIndexByComponent.getD j 0)).take
      (c.variableIndexByComponent.getD (j + 1) 0 -
        c.variableIndexByComponent.getD j 0)

/-- The interacting coordinates of the global state read by this coordinate:
`xLocal = x[self.interactionIndex]`. -/
def HillCoordinate.xLocal (c : HillCoordinate) (x : List ℚ) : List ℚ :=
  c.interactionIndex.map fun i => x.getD i 0

/-- Model of `HillCoordinate.evaluate_components`: evaluate each Hill
component at its incoming state value and its parameter slice (Python's
`map` over several lists stops at the shortest, as `zipWith` does). -/
def HillCoordinate.evaluateComponents (c : HillCoordinate) (x p : List ℚ) :
    List ℚ :=
  List.zipWith (fun H xp => H.call xp.1 xp.2) c.components
    ((c.xLocal x).zip (c.parameterByComponent p))

/-- First index in `L` of a list containing `k`, starting the count at `i`. -/
def summandIndexAux (k : ℕ) : List (List ℕ) → ℕ → Option ℕ
  | [], _ => none
  | S :: rest, i => if k ∈ S then some i else summandIndexAux k rest (i + 1)

/-- Model of `HillCoordinate.summand_index`: the index of the first summand
group containing component `k`.  The Python
`self.summand.index(filter(...).__next__())` raises StopIteration when no
group contains `k`; that failure is modelled by `none`. -/
def HillCoordinate.summandIndex (c : HillCoordinate) (k : ℕ) : Option ℕ :=
  summandIndexAux k c.summand 0

/-- Model of `HillCoordinate.evaluate_summand` with `m = None`: the vector of
summand values, each the sum of its member components' evaluations. -/
def HillCoordinate.evaluateSummand (c : HillCoordinate) (x p : List ℚ) :
    List ℚ :=
  c.summand.map fun S =>
    (S.map fun k =>
      (c.components.getD k default).call
        (x.getD (c.interactionIndex.getD k 0) 0)
        ((c.parameterByComponent p).getD k [])).sum

/-- Model of `HillCoordinate.interaction_function`: plain sum for a single
summand group, otherwise the product of the summand sums. -/
def HillCoordinate.interactionFunction (c : HillCoordinate)
    (componentValues : List ℚ) : ℚ :=
  if c.summand.length = 1 then componentValues.sum
  else (c.summand.map fun S => (S.map fun idx => componentValues.getD idx 0).sum).prod

/-- Model of `HillCoordinate.__call__` for a single state vector:
`-gamma * x[index] + p(H_1(x), ..., H_K(x))`. -/
def HillCoordinate.value (c : HillCoordinate) (x p : List ℚ) : ℚ :=
  -(c.parseGamma p) * x.getD c.index 0 +
    c.interactionFunction (c.evaluateComponents x p)

/-- Model of `HillCoordinate.diff_interaction` with `diffOrder = 1` and
`diffIndex = None` (hill_model.py lines 682-690): all ones for the all-sum
type; otherwise entry `k` is `fullProduct / allSummands[I(k)]` where `I(k)`
is the summand group of component `k`. -/
def HillCoordinate.diffInteractionGrad (c : HillCoordinate) (x p : List ℚ) :
    List ℚ :=
  if c.interactionType.length = 1 then List.replicate c.nComponent 1
  else
    let S := c.evaluateSummand x p
    let P := S.prod
    (List.range c.nComponent).map fun k =>
      P / S.getD ((c.summandIndex k).getD 0) 0

/-- Model of `HillCoordinate.diff_interaction` with `diffOrder = 1` and a
specified `diffIndex` (hill_model.py lines 730-738): `1.0` for the all-sum
type; otherwise the source computes
`np.prod([allSummands[self.summand_index(diffIndex)] for m in
range(self.nComponent) if m != I_k])` — the SAME summand value
`allSummands[I_k]` repeated once per component index `m ≠ I_k` (not the
product over the other summands that its own comment announces). -/
def HillCoordinate.diffInteractionSingle (c : HillCoordinate) (x p : List ℚ)
    (diffIndex : ℕ) : ℚ :=
  if c.interactionType.length = 1 then 1
  else
    let S := c.evaluateSummand x p
    let Ik := (c.summandIndex diffIndex).getD 0
    (((List.range c.nComponent).filter fun m => m ≠ Ik).map
      fun _ => S.getD Ik 0).prod

/-- The K-by-K zero matrix as a list of rows. -/
def zeroMatrix (K : ℕ) : List (List ℚ) :=
  List.replicate K (List.replicate K 0)

/-- The K-by-K-by-K zero tensor. -/
def zeroTensor (K : ℕ) : List (List (List ℚ)) :=
  List.replicate K (zeroMatrix K)

/-- Model of `HillCoordinate.diff_interaction` with `diffOrder = 2` and
`diffIndex = None` (hill_model.py lines 692-715): zero matrix for one
summand; for two summands a zero matrix whose entries at the index pairs
generated by `permutations(self.summand, 2)` crossed with `product` — i.e.
all pairs drawn from the two distinct groups, in both orders — are set to 1.
For three or more summands the source computes a local `DpH` but falls off
the end of the branch without a return statement, so Python returns `None`,
modelled by `none`. -/
def HillCoordinate.diffInteraction2 (c : HillCoordinate) (x p : List ℚ) :
    Option (List (List ℚ)) :=
  if c.interactionType.length = 1 then some (zeroMatrix c.nComponent)
  else if c.interactionType.length = 2 then
    let S0 := c.summand.getD 0 []
    let S1 := c.summand.getD 1 []
    let pairs := (S0.flatMap fun i => S1.map fun j => (i, j)) ++
      (S1.flatMap fun i => S0.map fun j => (i, j))
    some ((List.range c.nComponent).map fun i =>
      (List.range c.nComponent).map fun j =>
        if (i, j) ∈ pairs then (1 : ℚ) else 0)
  else none

/-- Cartesian product of three index lists, as ordered triples. -/
def tripleProd (A B C : List ℕ) : List (ℕ × ℕ × ℕ) :=
  A.flatMap fun i => B.flatMap fun j => C.map fun k => (i, j, k)

/-- Model of `HillCoordinate.diff_interaction` with `diffOrder = 3` and
`diffIndex = None` (hill_model.py lines 717-727): zero tensor for at most two
summands; for exactly three summands the entries at all triples drawn from
the three distinct groups (all 6 orderings, from `permutations(summand, 3)`)
are set to 1; for more than three summands the source raises
KeyboardInterrupt, modelled by an error. -/
def HillCoordinate.diffInteraction3 (c : HillCoordinate) (x p : List ℚ) :
    Except String (List (List (List ℚ))) :=
  if c.interactionType.length ≤ 2 then Except.ok (zeroTensor c.nComponent)
  else if c.interactionType.length = 3 then
    let S0 := c.summand.getD 0 []
    let S1 := c.summand.getD 1 []
    let S2 := c.summand.getD 2 []
    let triples := tripleProd S0 S1 S2 ++ tripleProd S0 S2 S1 ++
      tripleProd S1 S0 S2 ++ tripleProd S1 S2 S0 ++
      tripleProd S2 S0 S1 ++ tripleProd S2 S1 S0
    Except.ok ((List.range c.nComponent).map fun i =>
      (List.range c.nComponent).map fun j =>
        (List.range c.nComponent).map fun k =>
          if (i, j, k) ∈ triples then (1 : ℚ) else 0)
  else Except.error "KeyboardInterrupt"

/-- Vector of first x-derivatives of the components at their incoming state
values (`DHillComponent` in `HillCoordinate.dx`). -/
def HillCoordinate.dHillComponents (c : HillCoordinate) (x p : List ℚ) :
    List ℚ :=
  List.zipWith (fun H xp => H.dx xp.1 xp.2) c.components
    ((c.xLocal x).zip (c.parameterByComponent p))

/-- Entrywise product `diffInteraction * DHillComponent` assigned into the
gradient in `HillCoordinate.dx`. -/
def HillCoordinate.dxVals (c : HillCoordinate) (x p : List ℚ) : List ℚ :=
  List.zipWith (· * ·) (c.diffInteractionGrad x p) (c.dHillComponents x p)

/-- Model of numpy fancy-index assignment `base[idxs] = vals`: assign in
order, so a duplicated index keeps the last value.  (numpy raises on an
out-of-range index; `List.set` ignores it, so claims carry explicit bound
hypotheses.) -/
def listAssign : List ℚ → List ℕ → List ℚ → List ℚ
  | base, [], _ => base
  | base, _, [] => base
  | base, i :: is, v :: vs => listAssign (base.set i v) is vs

/-- Model of `HillCoordinate.dx` with `diffIndex = None` (hill_model.py lines
743-764): a zero vector of length `len(x)`, the chain-rule products assigned
at the interaction indices, and gamma subtracted at the coordinate's own
index. -/
def HillCoordinate.dx (c : HillCoordinate) (x p : List ℚ) : List ℚ :=
  let Df1 := listAssign (List.replicate x.length 0) c.interactionIndex
    (c.dxVals x p)
  Df1.set c.index (Df1.getD c.index 0 - c.parseGamma p)

/-! ## List helper lemmas -/

lemma getD_set_self (l : List ℚ) (i : ℕ) (v d : ℚ) (h : i < l.length) :
    (l.set i v).getD i d = v := by
  rw [List.getD_eq_getElem?_getD, List.getElem?_set_self h, Option.getD_some]

lemma getD_set_ne (l : List ℚ) (i j : ℕ) (v d : ℚ) (h : i ≠ j) :
    (l.set i v).getD j d = l.getD j d := by
  rw [List.getD_eq_getElem?_getD, List.getElem?_set_ne h,
    ← List.getD_eq_getElem?_getD]

lemma getD_replicate_zero (n i : ℕ) : (List.replicate n (0 : ℚ)).getD i 0 = 0 := by
  rw [List.getD_eq_getElem?_getD, List.getElem?_replicate]
  split <;> simp

lemma getD_map_range {α : Type} (f : ℕ → α) (K i : ℕ) (d : α) (h : i < K) :
    ((List.range K).map f).getD i d = f i := by
  rw [List.getD_eq_getElem?_getD, List.getElem?_map, List.getElem?_range h]
  rfl

lemma listAssign_length (is : List ℕ) (vs base : List ℚ) :
    (listAssign base is vs).length = base.length := by
  induction is generalizing vs base with
  | nil => simp [listAssign]
  | cons a as ih =>
    cases vs with
    | nil => simp [listAssign]
    | cons v vs =>
      simp only [listAssign]
      rw [ih, List.length_set]

lemma listAssign_getD_not_mem (is : List ℕ) (vs base : List ℚ) (i : ℕ) (d : ℚ)
    (h : i ∉ is) : (listAssign base is vs).getD i d = base.getD i d := by
  induction is generalizing vs base with
  | nil => simp [listAssign]
  | cons a as ih =>
    cases vs with
    | nil => simp [listAssign]
    | cons v vs =>
      simp only [List.mem_cons, not_or] at h
      simp only [listAssign]
      rw [ih _ _ h.2, getD_set_ne _ _ _ _ _ (fun hai => h.1 hai.symm)]

lemma listAssign_getD_mem (is : List ℕ) (vs base : List ℚ) (k : ℕ) (d : ℚ)
    (hnd : is.Nodup) (hlen : is.length = vs.length) (hk : k < is.length)
    (hb : is.getD k 0 < base.length) :
    (listAssign base is vs).getD (is.getD k 0) d = vs.getD k d := by
  induction is generalizing vs base k with
  | nil => simp at hk
  | cons a as ih =>
    cases vs with
    | nil => simp at hlen
    | cons v vs =>
      simp only [List.nodup_cons] at hnd
      cases k with
      | zero =>
        simp only [listAssign, show (a :: as).getD 0 0 = a from rfl]
        rw [listAssign_getD_not_mem _ _ _ _ _ hnd.1,
          getD_set_self _ _ _ _ (by simpa using hb)]
        rfl
      | succ k =>
        simp only [listAssign, show (a :: as).getD (k + 1) 0 = as.getD k 0 from rfl,
          show (v :: vs).getD (k + 1) d = vs.getD k d from rfl]
        exact ih vs (base.set a v) k hnd.2 (by simpa using hlen)
          (by simpa using hk) (by rw [List.length_set]; simpa using hb)

/-! ## Dimensional bookkeeping lemmas for HillCoordinate.dx -/

lemma diffInteractionGrad_length (c : HillCoordinate) (x p : List ℚ) :
    (c.diffInteractionGrad x p).length = c.nComponent := by
  unfold HillCoordinate.diffInteractionGrad
  split <;> simp

lemma parameterByComponent_length (c : HillCoordinate) (p : List ℚ) :
    (c.parameterByComponent p).length = c.nComponent := by
  unfold HillCoordinate.parameterByComponent
  simp

lemma xLocal_length (c : HillCoordinate) (x : List ℚ) :
    (c.xLocal x).length = c.interactionIndex.length := by
  unfold HillCoordinate.xLocal
  simp

lemma dHillComponents_length (c : HillCoordinate) (x p : List ℚ)
    (hlen : c.components.length = c.interactionIndex.length) :
    (c.dHillComponents x p).length = c.components.length := by
  unfold HillCoordinate.dHillComponents
  rw [List.length_zipWith, List.length_zip, xLocal_length,
    parameterByComponent_length]
  unfold HillCoordinate.nComponent
  omega

lemma dxVals_length (c : HillCoordinate) (x p : List ℚ)
    (hlen : c.components.length = c.interactionIndex.length) :
    (c.dxVals x p).length = c.interactionIndex.length := by
  unfold HillCoordinate.dxVals
  rw [List.length_zipWith, diffInteractionGrad_length,
    dHillComponents_length c x p hlen]
  unfold HillCoordinate.nComponent
  omega

/-- C2: for a HillCoordinate whose interaction indices are pairwise distinct
and in range, `dx` returns a gradient of the state's dimension that is zero
at every index outside `{selfIndex} ∪ interactionIndices`; at the k-th
interacting index it is the k-th interaction-function partial (as computed by
`diff_interaction` order 1) times the k-th component's x-derivative, with
`-gamma` added additively when that index is also the coordinate's own; and
at a selfIndex that is not an interaction index it is exactly `-gamma`. -/
theorem hillCoordinate_dx_spec (c : HillCoordinate) (x p : List ℚ)
    (hnd : c.interactionIndex.Nodup)
    (hlen : c.components.length = c.interactionIndex.length)
    (hbnd : ∀ j ∈ c.interactionIndex, j < x.length)
    (hself : c.index < x.length) :
    (c.dx x p).length = x.length ∧
    (∀ i, i ∉ c.interactionIndex → i ≠ c.index → (c.dx x p).getD i 0 = 0) ∧
    (∀ k, k < c.interactionIndex.length →
      (c.dx x p).getD (c.interactionIndex.getD k 0) 0 =
        (c.dxVals x p).getD k 0 +
          (if c.interactionIndex.getD k 0 = c.index then -(c.parseGamma p) else 0)) ∧
    (c.index ∉ c.interactionIndex → (c.dx x p).getD c.index 0 = -(c.parseGamma p)) := by
  have hvlen : (c.dxVals x p).length = c.interactionIndex.length :=
    dxVals_length c x p hlen
  have hL : (listAssign (List.replicate x.length 0) c.interactionIndex
      (c.dxVals x p)).length = x.length := by
    rw [listAssign_length, List.length_replicate]
  refine ⟨?_, ?_, ?_, ?_⟩
  · unfold HillCoordinate.dx
    rw [List.length_set, hL]
  · intro i hmem hne
    unfold HillCoordinate.dx
    rw [getD_set_ne _ _ _ _ _ (fun h => hne h.symm),
      listAssign_getD_not_mem _ _ _ _ _ hmem, getD_replicate_zero]
  · intro k hk
    have hmemk : c.interactionIndex.getD k 0 ∈ c.interactionIndex := by
      rw [List.getD_eq_getElem?_getD, List.getElem?_eq_getElem hk]
      exact List.getElem_mem hk
    have hbk : c.interactionIndex.getD k 0 < x.length := hbnd _ hmemk
    have hassign : (listAssign (List.replicate x.length 0) c.interactionIndex
        (c.dxVals x p)).getD (c.interactionIndex.getD k 0) 0 =
        (c.dxVals x p).getD k 0 :=
      listAssign_getD_mem _ _ _ _ _ hnd hvlen.symm hk
        (by rw [List.length_replicate]; exact hbk)
    unfold HillCoordinate.dx
    by_cases hik : c.interactionIndex.getD k 0 = c.index
    · rw [if_pos hik, hik, getD_set_self _ _ _ _ (by rw [hL]; exact hself),
        ← hik, hassign]
      ring
    · rw [if_neg hik, getD_set_ne _ _ _ _ _ (fun h => hik h.symm), hassign]
      ring
  · intro hmem
    unfold HillCoordinate.dx
    rw [getD_set_self _ _ _ _ (by rw [hL]; exact hself),
      listAssign_getD_not_mem _ _ _ _ _ hmem, getD_replicate_zero]
    ring

/-- The coordinate used to witness C2: one component with all parameters
fixed, self index 0, reading state variable 1, fixed gamma 3. -/
def witnessCoordinate : HillCoordinate :=
  mkHillCoordinate
    [fun n =>
      match n with
      | ParamName.ell => some 0
      | ParamName.delta => some 1
      | ParamName.theta => some 2
      | ParamName.hillCoefficient => some 4]
    [1] [1] [0, 1] (some 3)

/-- Witness for C2: at the concrete single-component coordinate, the gradient
entry at the coordinate's own (non-interacting) index is exactly `-gamma`. -/
theorem hillCoordinate_dx_spec_witness :
    (witnessCoordinate.dx [1, 2] []).getD witnessCoordinate.index 0 =
      -(witnessCoordinate.parseGamma []) :=
  (hillCoordinate_dx_spec witnessCoordinate [1, 2] [] (by decide) (by decide)
    (by decide) (by decide)).2.2.2 (by decide)

/-! ## C3: the diffIndex branch of diff_interaction at order 1 -/

/-- Fixed parameter row with ell = 1 and delta = theta = hillCoefficient = 1. -/
def rowEllOne : ParamName → Option ℚ := fun n =>
  match n with
  | ParamName.ell => some 1
  | _ => some 1

/-- Fixed parameter row with ell = 2 and delta = theta = hillCoefficient = 1. -/
def rowEllTwo : ParamName → Option ℚ := fun n =>
  match n with
  | ParamName.ell => some 2
  | _ => some 1

/-- A two-component coordinate with interaction type [1, 1] (two summand
groups of one component each), all parameters fixed: component 0 has
ell = 1, component 1 has ell = 2, both with delta = theta = n = 1, sign +1,
fixed gamma 1, reading state variables 0 and 1.  At x = (1, 1) the summand
values are 3/2 and 5/2. -/
def unevenCoordinate : HillCoordinate :=
  mkHillCoordinate [rowEllOne, rowEllTwo] [1, 1] [1, 1] [0, 0, 1] (some 1)

lemma rowEllOne_call : (mkHillComponent 1 rowEllOne).call 1 [] = 3 / 2 := by
  have hv : (mkHillComponent 1 rowEllOne).variableParameters = [] := rfl
  simp [HillComponent.call, HillComponent.curry, hv, mkHillComponent,
    rowEllOne, qpow]
  norm_num

lemma rowEllTwo_call : (mkHillComponent 1 rowEllTwo).call 1 [] = 5 / 2 := by
  have hv : (mkHillComponent 1 rowEllTwo).variableParameters = [] := rfl
  simp [HillComponent.call, HillComponent.curry, hv, mkHillComponent,
    rowEllTwo, qpow]
  norm_num

lemma unevenCoordinate_summands :
    unevenCoordinate.evaluateSummand [1, 1] [] = [3 / 2, 5 / 2] := by
  have h : unevenCoordinate.evaluateSummand [1, 1] [] =
      [(mkHillComponent 1 rowEllOne).call 1 [] + 0,
        (mkHillComponent 1 rowEllTwo).call 1 [] + 0] := rfl
  rw [h, rowEllOne_call, rowEllTwo_call]
  norm_num

/-- C3 (failing input): at the two-summand coordinate above, the summand
values are [3/2, 5/2]; the claim (and the code's own inline comment, and its
own diffIndex = None branch, whose entry 0 is 5/2 = the product of the other
summand sums) says the order-1 partial at component 0 is 5/2, but the
diffIndex branch returns 3/2 — it multiplies the summand value containing the
differentiation component instead of the other summands. -/
theorem diffInteractionSingle_wrong_summand :
    unevenCoordinate.evaluateSummand [1, 1] [] = [3 / 2, 5 / 2] ∧
    unevenCoordinate.diffInteractionSingle [1, 1] [] 0 = 3 / 2 ∧
    (unevenCoordinate.diffInteractionGrad [1, 1] []).getD 0 0 = 5 / 2 ∧
    (3 : ℚ) / 2 ≠ 5 / 2 := by
  have hidx : unevenCoordinate.summandIndex 0 = some 0 := rfl
  have hn : unevenCoordinate.nComponent = 2 := rfl
  refine ⟨unevenCoordinate_summands, ?_, ?_, by norm_num⟩
  · simp only [HillCoordinate.diffInteractionSingle,
      unevenCoordinate_summands, hidx, hn]
    rw [if_neg (by decide)]
    norm_num [List.range_succ, List.filter]
  · simp only [HillCoordinate.diffInteractionGrad,
      unevenCoordinate_summands, hidx, hn]
    rw [if_neg (by decide)]
    norm_num [List.range_succ]
    rw [hidx]
    norm_num

/-! ## C4: orders 2 and 3 of diff_interaction for few summands -/

/-- A two-component, two-summand coordinate (interaction type [1, 1]) with
every parameter fixed at 1 and fixed gamma 1. -/
def twoSummandCoordinate : HillCoordinate :=
  mkHillCoordinate [fun _ => some 1, fun _ => some 1]
    [1, 1] [1, 1] [0, 0, 1] (some 1)

/-- Counterexample for C4: with q = 2 summand groups, the order-2 tensor
returned by diff_interaction is NOT zero — its cross-summand entries are 1. -/
theorem diffInteraction2_not_zero_for_two_summands :
    twoSummandCoordinate.interactionType.length = 2 ∧
    twoSummandCoordinate.diffInteraction2 [] [] = some [[0, 1], [1, 0]] ∧
    some [[(0 : ℚ), 1], [1, 0]] ≠ some (zeroMatrix 2) := by
  refine ⟨rfl, by decide, by decide⟩

/-- C4 (amended): the order-2 tensor of diff_interaction is zero when q = 1;
for q = 2 its entry (i, j) is 1 exactly when i and j lie in the two distinct
summand groups (in either order) and 0 otherwise; the order-3 tensor is zero
whenever q ≤ 2. -/
theorem diffInteraction2_diffInteraction3_spec (c : HillCoordinate)
    (x p : List ℚ) :
    (c.interactionType.length = 1 →
      c.diffInteraction2 x p = some (zeroMatrix c.nComponent)) ∧
    (c.interactionType.length ≤ 2 →
      c.diffInteraction3 x p = Except.ok (zeroTensor c.nComponent)) ∧
    (c.interactionType.length = 2 →
      ∃ M, c.diffInteraction2 x p = some M ∧
        ∀ i j, i < c.nComponent → j < c.nComponent →
          (M.getD i []).getD j 0 =
            if (i ∈ c.summand.getD 0 [] ∧ j ∈ c.summand.getD 1 []) ∨
                (i ∈ c.summand.getD 1 [] ∧ j ∈ c.summand.getD 0 []) then 1
            else 0) := by
  refine ⟨?_, ?_, ?_⟩
  · intro h
    simp [HillCoordinate.diffInteraction2, h]
  · intro h
    simp [HillCoordinate.diffInteraction3, h]
  · intro h
    unfold HillCoordinate.diffInteraction2
    rw [if_neg (by omega), if_pos h]
    refine ⟨_, rfl, ?_⟩
    intro i j hi hj
    rw [getD_map_range _ _ _ _ hi, getD_map_range _ _ _ _ hj]
    refine if_congr ?_ rfl rfl
    simp only [List.mem_append, List.mem_flatMap, List.mem_map, Prod.mk.injEq]
    constructor
    · rintro (⟨a, ha, b, hb, hab⟩ | ⟨a, ha, b, hb, hab⟩)
      · exact Or.inl ⟨hab.1 ▸ ha, hab.2 ▸ hb⟩
      · exact Or.inr ⟨hab.1 ▸ ha, hab.2 ▸ hb⟩
    · rintro (⟨hi', hj'⟩ | ⟨hi', hj'⟩)
      · exact Or.inl ⟨i, hi', j, hj', rfl, rfl⟩
      · exact Or.inr ⟨i, hi', j, hj', rfl, rfl⟩

/-- Witness for C4 (amended): at the concrete two-summand coordinate the
order-3 tensor is the zero 2-by-2-by-2 tensor. -/
theorem diffInteraction3_zero_witness :
    twoSummandCoordinate.diffInteraction3 [] [] = Except.ok (zeroTensor 2) :=
  (diffInteraction2_diffInteraction3_spec twoSummandCoordinate [] []).2.1
    (by decide)

/-! ## C7: no validation of the interaction-type partition at construction -/

/-- Model of HillCoordinate construction viewed as a fallible operation.  The
Python `__init__` (hill_model.py lines 522-558) and the `set_summand` it
calls contain no validation and no raise path: numpy cumsum and Python list
slicing are total and slicing clips out-of-range bounds silently, so
construction succeeds for every argument combination, malformed partitions
included. -/
def mkHillCoordinateE (parameter : List (ParamName → Option ℚ))
    (interactionSign : List ℤ) (interactionType : List ℕ)
    (interactionIndexFull : List ℕ) (gamma : Option ℚ) :
    Except String HillCoordinate :=
  Except.ok (mkHillCoordinate parameter interactionSign interactionType
    interactionIndexFull gamma)

/-- Parameter rows (all four parameters fixed at 1) for the malformed
construction below. -/
def allOnesRows : List (ParamName → Option ℚ) := [fun _ => some 1, fun _ => some 1]

lemma summandIndexAux_eq_none (k : ℕ) (L : List (List ℕ)) (i : ℕ)
    (h : ∀ S ∈ L, k ∉ S) : summandIndexAux k L i = none := by
  induction L generalizing i with
  | nil => rfl
  | cons S rest ih =>
    simp only [summandIndexAux]
    rw [if_neg (h S (by simp))]
    exact ih _ fun T hT => h T (by simp [hT])

/-- Counterexample for C7: constructing a HillCoordinate with K = 2 Hill
components but interaction type [1] (which sums to 1, not 2) raises nothing —
the constructor returns a coordinate whose summand partition was silently
clipped to [[0]], leaving component 1 in no summand group. -/
theorem hillCoordinate_no_partition_validation :
    List.sum [1] ≠ 2 ∧
    (mkHillCoordinateE allOnesRows [1, 1] [1] [0, 0, 1] (some 1)).isOk = true ∧
    (mkHillCoordinate allOnesRows [1, 1] [1] [0, 0, 1] (some 1)).summand = [[0]] := by
  refine ⟨by decide, rfl, rfl⟩

/-- C7 (amended): construction of a HillCoordinate never fails — a partition
that does not sum to K is accepted silently with the summand groups clipped —
and the failure is deferred: summand_index, called during evaluation and
differentiation, fails (Python StopIteration) for any component left outside
every summand group. -/
theorem hillCoordinate_construction_total (parameter : List (ParamName → Option ℚ))
    (interactionSign : List ℤ) (interactionType : List ℕ)
    (interactionIndexFull : List ℕ) (gamma : Option ℚ) :
    mkHillCoordinateE parameter interactionSign interactionType
        interactionIndexFull gamma =
      Except.ok (mkHillCoordinate parameter interactionSign interactionType
        interactionIndexFull gamma) ∧
    (∀ k, (∀ S ∈ (mkHillCoordinate parameter interactionSign interactionType
        interactionIndexFull gamma).summand, k ∉ S) →
      (mkHillCoordinate parameter interactionSign interactionType
        interactionIndexFull gamma).summandIndex k = none) := by
  refine ⟨rfl, fun k h => summandIndexAux_eq_none k _ 0 h⟩

/-- Witness for C7 (amended): for the clipped partition [[0]] of the
malformed construction, summand_index fails on component 1. -/
theorem hillCoordinate_construction_total_witness :
    (mkHillCoordinate allOnesRows [1, 1] [1] [0, 0, 1] (some 1)).summandIndex 1 =
      none :=
  (hillCoordinate_construction_total allOnesRows [1, 1] [1] [0, 0, 1]
    (some 1)).2 1 (by decide)

/-! ## C6: HillComponent.dx3 -/

/-- Model of `HillComponent.dx3` (hill_model.py lines 462-476).  The source
unpacks the parameters and computes the powers, but its return expression is
`self.sign(hill * delta * thetaPower * xPower_der3) / ...`: it CALLS the
integer attribute `self.sign` with one argument (instead of multiplying by
it, as `dx` and `dx2` do), so every evaluation raises
`TypeError: int object is not callable` before producing a value. -/
def HillComponent.dx3 (c : HillComponent) (x : ℚ) (p : List ℚ) :
    Except String ℚ :=
  let pv := c.curry p
  let hill := pv ParamName.hillCoefficient
  let _thetaPower := qpow (pv ParamName.theta) hill
  let _xPower_der3 := qpow x (hill - 3)
  Except.error "TypeError: int object is not callable"

/-- C6: no input whatsoever makes `dx3` produce a value — the method raises a
TypeError on every call because it applies the integer `self.sign` as a
function. -/
theorem hillComponent_dx3_always_fails (c : HillComponent) (x : ℚ)
    (p : List ℚ) :
    c.dx3 x p = Except.error "TypeError: int object is not callable" := rfl

/-! ## C8: symmetry of diff2 in the differentiation order -/

/-- The index normalisation at the top of `HillComponent.diff2`
(hill_model.py lines 250-252): `if diffIndex[0] > diffIndex[1]: diffIndex =
diffIndex[[1, 0]]`. -/
def diff2Pair (i j : ℕ) : ℕ × ℕ := if j < i then (j, i) else (i, j)

/-- The body of `HillComponent.diff2` (hill_model.py lines 254-307) after the
index pair has been sorted, dispatching on the two parameter names.  A pair
of names with no assignment to `dH` in the source (possible only for a
non-canonical variable-parameter ordering) is an UnboundLocalError, and the
(theta, hillCoefficient) branch contains
`(1 + hillCoefficient * log(theta * x))(thetaPower + xPower)`, which calls a
float (TypeError); both failures are modelled by `none`.  `lg` interprets
the float `log`. -/
def diff2Body (lg : ℚ → ℚ) (c : HillComponent) (n0 n1 : ParamName) (x : ℚ)
    (p : List ℚ) : Option ℚ :=
  match n0 with
  | ParamName.ell => some 0
  | ParamName.delta =>
    let pv := c.curry p
    let n := pv ParamName.hillCoefficient
    let θ := pv ParamName.theta
    let xP := qpow x n
    match n1 with
    | ParamName.ell => none
    | ParamName.delta => some 0
    | ParamName.theta =>
      let θPm := qpow θ (n - 1)
      let θP := θ * θPm
      some ((c.sign : ℚ) * (-1) * n * xP * θPm / ((θP + xP) ^ 2))
    | ParamName.hillCoefficient =>
      let θP := qpow θ n
      some ((c.sign : ℚ) * xP * θP * lg (θ / x) / ((θP + xP) ^ 2))
  | ParamName.theta =>
    let pv := c.curry p
    let n := pv ParamName.hillCoefficient
    let θ := pv ParamName.theta
    let δ := pv ParamName.delta
    let xP := qpow x n
    match n1 with
    | ParamName.theta =>
      let θPmm := qpow θ (n - 2)
      let θPm := θ * θPmm
      let θP := θ * θPm
      some ((c.sign : ℚ) * (-δ) * n * xP *
        (θPmm * (n - 1) * (θP + xP) - θPm * 2 * n * θPm) / ((θP + xP) ^ 3))
    | _ => none
  | ParamName.hillCoefficient =>
    let pv := c.curry p
    let n := pv ParamName.hillCoefficient
    let θ := pv ParamName.theta
    let δ := pv ParamName.delta
    let xP := qpow x n
    let θP := qpow θ n
    some ((c.sign : ℚ) * δ / ((θP + xP) ^ 4) *
      (lg (x * θ) * lg (x / θ) * (θP + xP) ^ 2 -
        lg (x / θ) * 2 * (θP + xP) * (θP * lg θ + xP * lg x)))

/-- Model of `HillComponent.diff2` (hill_model.py lines 246-307): sort the
two local parameter indices, look the parameter names up in
`variableParameters` (an out-of-range index is a Python IndexError, modelled
by `none`), then dispatch on the names. -/
def HillComponent.diff2 (c : HillComponent) (lg : ℚ → ℚ) (i j : ℕ) (x : ℚ)
    (p : List ℚ) : Option ℚ :=
  match c.variableParameters[(diff2Pair i j).1]?,
      c.variableParameters[(diff2Pair i j).2]? with
  | some n0, some n1 => diff2Body lg c n0 n1 x p
  | _, _ => none

lemma diff2Pair_comm (i j : ℕ) : diff2Pair i j = diff2Pair j i := by
  unfold diff2Pair
  rcases Nat.lt_trichotomy i j with h | h | h
  · rw [if_neg (Nat.lt_asymm h), if_pos h]
  · subst h
    rfl
  · rw [if_pos h, if_neg (Nat.lt_asymm h)]

/-- C8: the second mixed parameter derivative of a Hill component is
symmetric in the order of differentiation: diff2 at the index pair (i, j)
equals diff2 at (j, i), for every component, state value, parameter vector
and every interpretation of the float logarithm. -/
theorem hillComponent_diff2_symm (c : HillComponent) (lg : ℚ → ℚ) (i j : ℕ)
    (x : ℚ) (p : List ℚ) : c.diff2 lg i j x p = c.diff2 lg j i x p := by
  unfold HillComponent.diff2
  rw [diff2Pair_comm]

/-! ## C5: the tail of HillModel.find_equilibria -/

/-- Result of one run of the external Newton solver (`find_root` with
`diagnose=True`): the scipy success flag and the solution vector. -/
structure NewtonResult where
  success : Bool
  x : List ℚ

/-- Model of the local `eq_is_positive` of `find_equilibria`:
`np.all(equilibrium > 0)`, strict positivity in every coordinate. -/
def eqIsPositive (v : List ℚ) : Bool := v.all fun y => decide (0 < y)

/-- Model of `HillModel.find_equilibria` after the per-grid-point Newton
solves (hill_model.py lines 1148-1153): keep the runs that report success
AND are strictly positive in every coordinate, then stack the surviving
solution vectors as the columns of a matrix with `np.column_stack`.
`np.column_stack` on an empty list raises
`ValueError: need at least one array to concatenate`, so the zero-survivor
case is an exception, not a degenerate return; the subsequent
round/unique/re-solve steps of the source never execute in that case. -/
def findEquilibriaStack (results : List NewtonResult) :
    Except String (List (List ℚ)) :=
  let solns := results.filter fun r => r.success && eqIsPositive r.x
  if solns.isEmpty then
    Except.error "ValueError: need at least one array to concatenate"
  else Except.ok (solns.map fun r => r.x)

/-- C5 (failing input): with one Newton run that converged to a
non-positive point and one that failed to converge, no candidate survives
the success-and-positive filter and find_equilibria raises ValueError from
`np.column_stack([])` instead of returning an empty result. -/
theorem findEquilibria_raises_when_empty :
    findEquilibriaStack [⟨true, [-1, 2]⟩, ⟨false, [1, 1]⟩] =
      Except.error "ValueError: need at least one array to concatenate" := by
  rfl

/-! ## C9: purity of evaluation and derivative calls -/

/-- Model of `HillComponent.diff` (hill_model.py lines 215-244): first
derivative with respect to the variable parameter at the given local index
(an out-of-range index is a Python IndexError, modelled by `none`); constant
1 for ell and closed-form expressions for the others, with `lg` interpreting
the float `log`. -/
def HillComponent.diff (c : HillComponent) (lg : ℚ → ℚ) (x : ℚ) (p : List ℚ)
    (diffIndex : ℕ) : Option ℚ :=
  match c.variableParameters[diffIndex]? with
  | none => none
  | some name =>
    match name with
    | ParamName.ell => some 1
    | ParamName.delta =>
      let pv := c.curry p
      let n := pv ParamName.hillCoefficient
      let xP := qpow x n
      let θP := qpow (pv ParamName.theta) n
      some (if c.sign = 1 then xP / (θP + xP) ^ 2 else θP / (θP + xP) ^ 2)
    | ParamName.theta =>
      let pv := c.curry p
      let n := pv ParamName.hillCoefficient
      let xP := qpow x n
      let θPs := qpow (pv ParamName.theta) (n - 1)
      let θP := pv ParamName.theta * θPs
      some ((c.sign : ℚ) * (-(pv ParamName.delta) * n * xP * θPs) /
        ((θP + xP) ^ 2))
    | ParamName.hillCoefficient =>
      let pv := c.curry p
      let n := pv ParamName.hillCoefficient
      let xP := qpow x n
      let θP := qpow (pv ParamName.theta) n
      some ((c.sign : ℚ) * pv ParamName.delta * xP * θP *
        lg (x / pv ParamName.theta) / ((θP + xP) ^ 2))

/-- State-passing form of `HillComponent.__call__`: the only writes the
source performs are to locals and to the fresh copy made by
`curry_parameters` (`self.parameterValues.copy()`), so the receiver comes
back unchanged next to the returned value. -/
def HillComponent.callState (c : HillComponent) (x : ℚ) (p : List ℚ) :
    HillComponent × ℚ := (c, c.call x p)

/-- State-passing form of `HillComponent.dx`; as for the call, the source
writes only to locals and to the copy made by `curry_parameters`. -/
def HillComponent.dxState (c : HillComponent) (x : ℚ) (p : List ℚ) :
    HillComponent × ℚ := (c, c.dx x p)

/-- State-passing form of `HillComponent.diff`. -/
def HillComponent.diffState (c : HillComponent) (lg : ℚ → ℚ) (x : ℚ)
    (p : List ℚ) (i : ℕ) : HillComponent × Option ℚ := (c, c.diff lg x p i)

/-- State-passing form of `HillCoordinate.__call__`: evaluation only reads
the construction-time attributes. -/
def HillCoordinate.valueState (c : HillCoordinate) (x p : List ℚ) :
    HillCoordinate × ℚ := (c, c.value x p)

/-- State-passing form of `HillCoordinate.dx`. -/
def HillCoordinate.dxState (c : HillCoordinate) (x p : List ℚ) :
    HillCoordinate × List ℚ := (c, c.dx x p)

/-- C9: evaluation and derivative calls on HillComponents and
HillCoordinates are pure — each call returns the entity unchanged (in
particular the stored `parameterValues` vector is untouched), and a second
call on the state coming out of the first call returns the identical
result. -/
theorem evaluation_is_pure (lg : ℚ → ℚ) (c : HillComponent)
    (hc : HillCoordinate) (x : ℚ) (xs p : List ℚ) (i : ℕ) :
    (c.callState x p).1 = c ∧
    ((c.callState x p).1).parameterValues = c.parameterValues ∧
    ((c.callState x p).1.callState x p).2 = (c.callState x p).2 ∧
    (c.dxState x p).1 = c ∧
    ((c.dxState x p).1.dxState x p).2 = (c.dxState x p).2 ∧
    (c.diffState lg x p i).1 = c ∧
    ((c.diffState lg x p i).1.diffState lg x p i).2 = (c.diffState lg x p i).2 ∧
    (hc.valueState xs p).1 = hc ∧
    ((hc.valueState xs p).1.valueState xs p).2 = (hc.valueState xs p).2 ∧
    (hc.dxState xs p).1 = hc ∧
    ((hc.dxState xs p).1.dxState xs p).2 = (hc.dxState xs p).2 :=
  ⟨rfl, rfl, rfl, rfl, rfl, rfl, rfl, rfl, rfl, rfl, rfl⟩

/-! ## C10: parameter accessors are installed on the class, not the instance -/

/-- The class-level attribute table written by `add_parameter_call`
(hill_model.py lines 148-156): `setattr(HillComponent, parameterName,
call_function)` binds, PER PARAMETER NAME AND FOR ALL INSTANCES AT ONCE, a
function slicing a fixed position out of a parameter vector.  `none` means
no accessor has been installed yet under that name (AttributeError when
called). -/
def ClassAccessors : Type := ParamName → Option ℕ

/-- Model of `HillComponent.__init__` together with its class-level side
effect: constructing a component overwrites, for each of its variable
parameter names, the shared class accessor with one slicing that name's
position in THIS component's ordering. -/
def mkHillComponentCls (cls : ClassAccessors) (sign : ℤ)
    (kwargs : ParamName → Option ℚ) : HillComponent × ClassAccessors :=
  let c := mkHillComponent sign kwargs
  (c, c.variableParameters.enum.foldl
    (fun acc iv => fun n => if n = iv.2 then some iv.1 else acc n) cls)

/-- Model of `HillComponent.image` (hill_model.py lines 501-514): for a
variable parameter the source calls `self.ell(parameter)` /
`self.delta(parameter)`, which resolves to the CLASS attribute — the
accessor most recently installed by any construction — while a fixed
parameter reads the instance attribute.  An uninstalled accessor or an
out-of-range slice is a Python error, modelled by `none`. -/
def HillComponent.imageCls (c : HillComponent) (cls : ClassAccessors)
    (p : List ℚ) : Option (ℚ × ℚ) :=
  let getP : ParamName → Option ℚ := fun name =>
    if name ∈ c.variableParameters then (cls name).bind fun i => p[i]?
    else some (c.parameterValues name)
  match getP ParamName.ell, getP ParamName.delta with
  | some e, some d => some (e, e + d)
  | _, _ => none

/-- Row for component A of the C10 scenario: ell = 1, theta = 3, n = 4
fixed; delta variable (position 0 of A's parameter vector). -/
def rowA : ParamName → Option ℚ := fun n =>
  match n with
  | ParamName.ell => some 1
  | ParamName.delta => none
  | ParamName.theta => some 3
  | ParamName.hillCoefficient => some 4

/-- Row for component B of the C10 scenario: theta = 2, n = 4 fixed; ell and
delta variable (positions 0 and 1 of B's parameter vector). -/
def rowB : ParamName → Option ℚ := fun n =>
  match n with
  | ParamName.ell => none
  | ParamName.delta => none
  | ParamName.theta => some 2
  | ParamName.hillCoefficient => some 4

/-- Component A, constructed first (on an empty class attribute table). -/
def compA : HillComponent := (mkHillComponentCls (fun _ => none) 1 rowA).1

/-- The class accessor table after constructing A. -/
def clsAfterA : ClassAccessors := (mkHillComponentCls (fun _ => none) 1 rowA).2

/-- The class accessor table after additionally constructing B. -/
def clsAfterB : ClassAccessors :=
  (mkHillComponentCls clsAfterA (-1) rowB).2

/-- C10: accessors live on the class.  A's delta sits at position 0 of A's
parameter vector and B's delta at position 1 of B's; constructing B
overwrites the shared delta accessor, so A.image — unchanged as an object —
reads delta from position 0 before B exists (image (1, 6) on the vector
(5, 7)) but from B's position 1 afterwards (image (1, 8) on the same
vector). -/
theorem image_reads_latest_class_accessor :
    compA.variableParameters = [ParamName.delta] ∧
    (mkHillComponentCls clsAfterA (-1) rowB).1.variableParameters =
      [ParamName.ell, ParamName.delta] ∧
    clsAfterA ParamName.delta = some 0 ∧
    clsAfterB ParamName.delta = some 1 ∧
    compA.imageCls clsAfterA [5, 7] = some (1, 6) ∧
    compA.imageCls clsAfterB [5, 7] = some (1, 8) := by
  refine ⟨rfl, rfl, rfl, rfl, ?_, ?_⟩
  · have h : compA.imageCls clsAfterA [5, 7] = some (1, 1 + 5) := rfl
    rw [h]
    norm_num
  · have h : compA.imageCls clsAfterB [5, 7] = some (1, 1 + 7) := rfl
    rw [h]
    norm_num

end NDMA
